import Mathlib

/-!
Shallow embedding of the IR remote-control transmitter `irxmit.py`
(class `IRxmit`), covering the parts of the code reachable from pure
computation: timing-profile selection in `IRxmit.__init__`, the
bitstream encoder `IRxmit.get_bitstream`, and the pulse-train
synthesizer `IRxmit.synthesize_frame`.  The pigpio device boundary
(handle acquisition, waveform upload, playback) is external I/O and is
not modelled; `synthesize_frame` is modelled up to the point where the
finished pulse list `wb` is handed to `pigpio.wave_add_generic`.
-/

/-- Timing-profile constants set by `IRxmit.__init__` for a given format
name.  Field names follow the private attributes `self.__T_CARRIER`,
`self.__MARK_CYCLES`, `self.__MARK_OFF`, `self.__T_LEADER_ON`,
`self.__T_LEADER_OFF`.  The attribute `self.__T_FRAME_MAX` (a float,
0.13 s for AEHA and 0.108 s for NEC) is assigned by the constructor but
never read by any computation in the code, so it is omitted here. -/
structure Profile where
  T_CARRIER : Nat
  MARK_CYCLES : Nat
  MARK_OFF : Nat
  T_LEADER_ON : Nat
  T_LEADER_OFF : Nat
deriving Repr, DecidableEq

/-- Constants assigned in the `format == 'AEHA'` branch of `IRxmit.__init__`. -/
def aehaProfile : Profile :=
  { T_CARRIER := 26, MARK_CYCLES := 17, MARK_OFF := 3,
    T_LEADER_ON := 8, T_LEADER_OFF := 4 }

/-- Constants assigned in the `format == 'NEC'` branch of `IRxmit.__init__`. -/
def necProfile : Profile :=
  { T_CARRIER := 26, MARK_CYCLES := 22, MARK_OFF := 3,
    T_LEADER_ON := 16, T_LEADER_OFF := 8 }

/-- Format dispatch in `IRxmit.__init__` (lines 45-64): an exact string
match on `'AEHA'` and `'NEC'`; any other format name raises
`Exception('Unknown format specified.')`, so no transmitter instance is
returned to the caller and no profile constants are ever assigned. -/
def resolveProfile (format : String) : Except String Profile :=
  if format = "AEHA" then Except.ok aehaProfile
  else if format = "NEC" then Except.ok necProfile
  else Except.error "Unknown format specified."

/-- One `pigpio.pulse(gpio_on, gpio_off, delay)` entry of the wave
buffer `wb`.  `delay` is kept as an integer because the trailer delay is
computed as `8000 - self.__T_CARRIER * self.__MARK_CYCLES`, which in
Python may go negative for pathological profile constants. -/
structure Pulse where
  gpioOn : Nat
  gpioOff : Nat
  delay : Int
deriving Repr, DecidableEq

/-- The on half-cycle `pigpio.pulse(1 << self.__pin, 0, self.__T_CARRIER // 2)`. -/
def onHalf (pin : Nat) (p : Profile) : Pulse :=
  ⟨1 <<< pin, 0, (p.T_CARRIER / 2 : Nat)⟩

/-- The off half-cycle `pigpio.pulse(0, 1 << self.__pin, self.__T_CARRIER // 2)`. -/
def offHalf (pin : Nat) (p : Profile) : Pulse :=
  ⟨0, 1 <<< pin, (p.T_CARRIER / 2 : Nat)⟩

/-- A plain off segment `pigpio.pulse(0, 1 << self.__pin, d)`. -/
def offPulse (pin : Nat) (d : Int) : Pulse :=
  ⟨0, 1 <<< pin, d⟩

/-- The loop `for i in range(0, n): wb.append(on-half); wb.append(off-half)`:
`n` subcarrier half-cycle pairs, as appended by the leader, data, and
trailer sections of `IRxmit.synthesize_frame`. -/
def markPulses (pin : Nat) (p : Profile) : Nat → List Pulse
  | 0 => []
  | n + 1 => onHalf pin p :: offHalf pin p :: markPulses pin p n

/-- Leader section of `IRxmit.synthesize_frame` (lines 89-95):
`MARK_CYCLES * T_LEADER_ON` half-cycle pairs, then one off segment of
`T_CARRIER * MARK_CYCLES * T_LEADER_OFF` microseconds. -/
def leaderPulses (pin : Nat) (p : Profile) : List Pulse :=
  markPulses pin p (p.MARK_CYCLES * p.T_LEADER_ON) ++
    [offPulse pin (p.T_CARRIER * p.MARK_CYCLES * p.T_LEADER_OFF : Nat)]

/-- Body of the data loop of `IRxmit.synthesize_frame` (lines 99-109) for
one character of the bit string: `MARK_CYCLES` half-cycle pairs, then one
off segment of `T_CARRIER * MARK_CYCLES` microseconds if the character is
`'0'`, of `T_CARRIER * MARK_CYCLES * MARK_OFF` microseconds if it is
`'1'`, and nothing at all for any other character (the `if`/`elif` has no
`else` branch). -/
def dataBitPulses (pin : Nat) (p : Profile) (bit : Char) : List Pulse :=
  markPulses pin p p.MARK_CYCLES ++
    (if bit = '0' then [offPulse pin (p.T_CARRIER * p.MARK_CYCLES : Nat)]
     else if bit = '1' then
       [offPulse pin (p.T_CARRIER * p.MARK_CYCLES * p.MARK_OFF : Nat)]
     else [])

/-- Trailer section of `IRxmit.synthesize_frame` (lines 112-118):
`MARK_CYCLES` half-cycle pairs, then one off segment of
`8000 - T_CARRIER * MARK_CYCLES` microseconds.  The code performs no
sign check on this difference. -/
def trailerPulses (pin : Nat) (p : Profile) : List Pulse :=
  markPulses pin p p.MARK_CYCLES ++
    [offPulse pin ((8000 : Int) - (p.T_CARRIER * p.MARK_CYCLES : Nat))]

/-- Complete wave buffer `wb` built by `IRxmit.synthesize_frame`
(lines 85-119): leader, then the data loop over the characters of the
bit string, then the trailer, appended in that order. -/
def synthesize_frame (pin : Nat) (p : Profile) (bits : List Char) : List Pulse :=
  leaderPulses pin p ++ bits.flatMap (dataBitPulses pin p) ++ trailerPulses pin p

/-- Value of a single hexadecimal digit character: the digit alphabet of
Python's `int(byte, 16)` inside `IRxmit.get_bitstream`. -/
def hexDigitVal? (c : Char) : Option Nat :=
  match c with
  | '0' | '1' | '2' | '3' | '4' | '5' | '6' | '7' | '8' | '9' =>
      some (c.toNat - '0'.toNat)
  | 'a' | 'b' | 'c' | 'd' | 'e' | 'f' => some (c.toNat - 'a'.toNat + 10)
  | 'A' | 'B' | 'C' | 'D' | 'E' | 'F' => some (c.toNat - 'A'.toNat + 10)
  | _ => none

/-- Characters with code point below 256 that CPython's `int(str, 16)`
treats as strippable whitespace around a numeral, determined by running
`int(c + '1', 16)` and `int('1' + c, 16)` over all 256 code points:
`\t`, `\n`, `\x0b`, `\x0c`, `\r`, `' '`, `\x85` and `\xa0`.  Code
points of 256 and above (other Unicode spaces, and Unicode decimal
digits, which CPython transforms to ASCII before parsing) are outside
the input alphabet modelled here. -/
def pySpace (c : Char) : Bool :=
  c == '\t' || c == '\n' || c == '\x0b' || c == '\x0c' || c == '\r' ||
  c == ' ' || c == '\x85' || c == '\xa0'

/-- Python's `int(byte, 16)` on the two-character slice
`byte = s[i * 2 : i * 2 + 2]`.  The accepted two-character forms are:
two hexadecimal digits (most-significant nibble first); a `'+'`, `'-'`
or whitespace character followed by one digit (`int('+1', 16) = 1`,
`int(' 1', 16) = 1`, `int('-f', 16) = -15`); or one digit followed by
trailing whitespace (`int('1 ', 16) = 1`).  Anything else (including
`'0x'`, a lone sign, or an underscore) raises `ValueError`, modelled as
`none`. -/
def parseBytePair (c1 c2 : Char) : Option Int :=
  match hexDigitVal? c1, hexDigitVal? c2 with
  | some h, some l => some ((16 * h + l : Nat) : Int)
  | some h, none => if pySpace c2 then some ((h : Nat) : Int) else none
  | none, some l =>
      if c1 = '+' || pySpace c1 then some ((l : Nat) : Int)
      else if c1 = '-' then some (-((l : Nat) : Int))
      else none
  | none, none => none

/-- Python's `f'{n:08b}'` for `0 ≤ n < 256`: the 8-character binary
representation of the byte value, most significant bit first. -/
def toBinMSB8 (n : Nat) : List Char :=
  [if n.testBit 7 then '1' else '0', if n.testBit 6 then '1' else '0',
   if n.testBit 5 then '1' else '0', if n.testBit 4 then '1' else '0',
   if n.testBit 3 then '1' else '0', if n.testBit 2 then '1' else '0',
   if n.testBit 1 then '1' else '0', if n.testBit 0 then '1' else '0']

/-- The 7 low binary digits of a magnitude, most significant first: the
digits Python places after the sign in `f'{n:08b}'` for `-128 < n < 0`
(the sign counts toward the zero-padded width of 8). -/
def toBinMSB7 (n : Nat) : List Char :=
  [if n.testBit 6 then '1' else '0', if n.testBit 5 then '1' else '0',
   if n.testBit 4 then '1' else '0', if n.testBit 3 then '1' else '0',
   if n.testBit 2 then '1' else '0', if n.testBit 1 then '1' else '0',
   if n.testBit 0 then '1' else '0']

/-- Python's `f'{v:08b}'` for `-128 < v < 256`, the range `int(byte, 16)`
can produce from a two-character slice: 8 zero-padded binary digits for
a non-negative value, and a `'-'` followed by 7 zero-padded binary
digits of the magnitude for a negative one (`f'{-15:08b}' = '-0001111'`). -/
def formatBin8 (v : Int) : List Char :=
  if v < 0 then '-' :: toBinMSB7 v.natAbs else toBinMSB8 v.toNat

/-- The classmethod `IRxmit.get_bitstream(s)` (lines 74-82): the loop
`for i in range(0, len(s) // 2)` consumes the input two characters at a
time, so a trailing odd character is simply never visited; each parsed
byte contributes `f'{int(byte, 16):08b}'` reversed (`[::-1]`, least
significant bit first).  A `ValueError` from `int` propagates out of the
method, modelled as `none`. -/
def get_bitstream : List Char → Option (List Char)
  | c1 :: c2 :: rest => do
      let v ← parseBytePair c1 c2
      let tail ← get_bitstream rest
      pure ((formatBin8 v).reverse ++ tail)
  | _ => some []

/-- Total delay, in microseconds, of a list of pulses. -/
def totalDuration (l : List Pulse) : Int :=
  (l.map Pulse.delay).sum

/-- Value of an 8-character binary string read most significant bit
first, as in the round-trip law's "reading each group as a byte". -/
def byteValMSB (l : List Char) : Nat :=
  l.foldl (fun acc c => 2 * acc + (if c = '1' then 1 else 0)) 0

/-- Decoding procedure of the round-trip law: group the bitstream into
consecutive 8-bit groups, reverse each group's bit order, and read each
group as a byte. -/
def decodeGroups : List Char → List Nat
  | b0 :: b1 :: b2 :: b3 :: b4 :: b5 :: b6 :: b7 :: rest =>
      byteValMSB [b7, b6, b5, b4, b3, b2, b1, b0] :: decodeGroups rest
  | _ => []

/-- The byte values denoted by an even-length hexadecimal payload
string, pair by pair, most-significant nibble first ("the original
payload bytes" of the round-trip law). -/
def payloadBytes? : List Char → Option (List Nat)
  | [] => some []
  | c1 :: c2 :: rest => do
      let h ← hexDigitVal? c1
      let l ← hexDigitVal? c2
      let tail ← payloadBytes? rest
      pure ((16 * h + l) :: tail)
  | _ => none

/-! ## Helper lemmas -/

lemma hexDigitVal?_lt {c : Char} {d : Nat} (h : hexDigitVal? c = some d) :
    d < 16 := by
  unfold hexDigitVal? at h
  split at h <;> simp_all <;> omega

lemma parseBytePair_digits {c1 c2 : Char} {d1 d2 : Nat}
    (h1 : hexDigitVal? c1 = some d1) (h2 : hexDigitVal? c2 = some d2) :
    parseBytePair c1 c2 = some ((16 * d1 + d2 : Nat) : Int) := by
  unfold parseBytePair
  rw [h1, h2]

lemma formatBin8_ofNat (n : Nat) : formatBin8 ((n : Nat) : Int) = toBinMSB8 n := by
  unfold formatBin8
  rw [if_neg (by omega)]
  norm_num

set_option maxRecDepth 4096 in
lemma byteValMSB_toBinMSB8 : ∀ v : Nat, v < 256 → byteValMSB (toBinMSB8 v) = v := by
  decide

lemma decodeGroups_toBinMSB8_append (v : Nat) (rest : List Char) :
    decodeGroups ((toBinMSB8 v).reverse ++ rest) =
      byteValMSB (toBinMSB8 v) :: decodeGroups rest := rfl

lemma toBinMSB8_length (v : Nat) : (toBinMSB8 v).length = 8 := rfl

lemma markPulses_length (pin : Nat) (p : Profile) :
    ∀ n : Nat, (markPulses pin p n).length = 2 * n
  | 0 => rfl
  | n + 1 => by
      simp [markPulses, markPulses_length pin p n]
      omega

lemma totalDuration_append (a b : List Pulse) :
    totalDuration (a ++ b) = totalDuration a + totalDuration b := by
  simp [totalDuration]

lemma totalDuration_markPulses (pin : Nat) (p : Profile) :
    ∀ n : Nat, totalDuration (markPulses pin p n) =
      ((n * (2 * (p.T_CARRIER / 2)) : Nat) : Int)
  | 0 => by simp [markPulses, totalDuration]
  | n + 1 => by
      have ih := totalDuration_markPulses pin p n
      simp only [markPulses, totalDuration, List.map_cons, List.sum_cons,
        onHalf, offHalf] at ih ⊢
      rw [ih]
      push_cast
      ring

lemma mem_markPulses {pin : Nat} {p : Profile} :
    ∀ {n : Nat} {seg : Pulse}, seg ∈ markPulses pin p n →
      seg = onHalf pin p ∨ seg = offHalf pin p := by
  intro n
  induction n with
  | zero => intro seg h; simp [markPulses] at h
  | succ m ih =>
      intro seg h
      simp [markPulses] at h
      rcases h with h | h | h
      · exact Or.inl h
      · exact Or.inr h
      · exact ih h

/-! ## Claim theorems -/

/-- C6: constructing a transmitter with any format name outside
{AEHA, NEC} fails with the unknown-format error raised by
`IRxmit.__init__`, so no transmitter is constructed and no default
profile is silently applied. -/
theorem c6_unknown_format (format : String)
    (h1 : format ≠ "AEHA") (h2 : format ≠ "NEC") :
    resolveProfile format = Except.error "Unknown format specified." := by
  simp [resolveProfile, h1, h2]

/-- Witness for C6 at the concrete format name `"RC5"`. -/
theorem c6_unknown_format_witness :
    resolveProfile "RC5" = Except.error "Unknown format specified." :=
  c6_unknown_format "RC5" (by decide) (by decide)

/-- C2: for a data bit of either shipped profile, the emitted segment is
`MARK_CYCLES` on/off half-cycle pairs (total duration
`T_CARRIER * MARK_CYCLES`, independent of the bit value) followed by a
single off segment of duration `T_CARRIER * MARK_CYCLES` for `'0'` and
`T_CARRIER * MARK_CYCLES * MARK_OFF` for `'1'`. -/
theorem c2_data_bit_timing (pin : Nat) (p : Profile)
    (hp : p = aehaProfile ∨ p = necProfile) (bit : Char)
    (hb : bit = '0' ∨ bit = '1') :
    dataBitPulses pin p bit =
      markPulses pin p p.MARK_CYCLES ++
        [offPulse pin
          (if bit = '0' then ((p.T_CARRIER * p.MARK_CYCLES : Nat) : Int)
           else ((p.T_CARRIER * p.MARK_CYCLES * p.MARK_OFF : Nat) : Int))] ∧
    (markPulses pin p p.MARK_CYCLES).length = 2 * p.MARK_CYCLES ∧
    totalDuration (markPulses pin p p.MARK_CYCLES) =
      ((p.T_CARRIER * p.MARK_CYCLES : Nat) : Int) := by
  refine ⟨?_, markPulses_length pin p p.MARK_CYCLES, ?_⟩
  · rcases hb with rfl | rfl <;> simp [dataBitPulses]
  · rw [totalDuration_markPulses]
    rcases hp with rfl | rfl <;> norm_num [aehaProfile, necProfile]

/-- Witness for C2 at the AEHA profile and bit `'1'`. -/
theorem c2_data_bit_timing_witness :
    dataBitPulses 13 aehaProfile '1' =
      markPulses 13 aehaProfile aehaProfile.MARK_CYCLES ++
        [offPulse 13
          (if ('1' : Char) = '0'
           then ((aehaProfile.T_CARRIER * aehaProfile.MARK_CYCLES : Nat) : Int)
           else ((aehaProfile.T_CARRIER * aehaProfile.MARK_CYCLES *
             aehaProfile.MARK_OFF : Nat) : Int))] ∧
    (markPulses 13 aehaProfile aehaProfile.MARK_CYCLES).length =
      2 * aehaProfile.MARK_CYCLES ∧
    totalDuration (markPulses 13 aehaProfile aehaProfile.MARK_CYCLES) =
      ((aehaProfile.T_CARRIER * aehaProfile.MARK_CYCLES : Nat) : Int) :=
  c2_data_bit_timing 13 aehaProfile (Or.inl rfl) '1' (Or.inr rfl)

/-- C7: for either shipped profile, every synthesized frame starts with
the leader: `MARK_CYCLES * T_LEADER_ON` on/off half-cycle pairs whose
total duration is `(T_CARRIER * MARK_CYCLES) * T_LEADER_ON`, followed by
a single off segment of duration
`T_CARRIER * MARK_CYCLES * T_LEADER_OFF`. -/
theorem c7_leader_timing (pin : Nat) (p : Profile)
    (hp : p = aehaProfile ∨ p = necProfile) (bits : List Char) :
    (∃ rest, synthesize_frame pin p bits =
      markPulses pin p (p.MARK_CYCLES * p.T_LEADER_ON) ++
        [offPulse pin ((p.T_CARRIER * p.MARK_CYCLES * p.T_LEADER_OFF : Nat) : Int)] ++
        rest) ∧
    (markPulses pin p (p.MARK_CYCLES * p.T_LEADER_ON)).length =
      2 * (p.MARK_CYCLES * p.T_LEADER_ON) ∧
    totalDuration (markPulses pin p (p.MARK_CYCLES * p.T_LEADER_ON)) =
      (((p.T_CARRIER * p.MARK_CYCLES) * p.T_LEADER_ON : Nat) : Int) := by
  refine ⟨⟨bits.flatMap (dataBitPulses pin p) ++ trailerPulses pin p, ?_⟩,
    markPulses_length pin p _, ?_⟩
  · simp [synthesize_frame, leaderPulses]
  · rw [totalDuration_markPulses]
    rcases hp with rfl | rfl <;> norm_num [aehaProfile, necProfile]

/-- Witness for C7 at the NEC profile and the bit string `"10"`. -/
theorem c7_leader_timing_witness :
    (∃ rest, synthesize_frame 13 necProfile ['1', '0'] =
      markPulses 13 necProfile (necProfile.MARK_CYCLES * necProfile.T_LEADER_ON) ++
        [offPulse 13 ((necProfile.T_CARRIER * necProfile.MARK_CYCLES *
          necProfile.T_LEADER_OFF : Nat) : Int)] ++ rest) ∧
    (markPulses 13 necProfile (necProfile.MARK_CYCLES * necProfile.T_LEADER_ON)).length =
      2 * (necProfile.MARK_CYCLES * necProfile.T_LEADER_ON) ∧
    totalDuration (markPulses 13 necProfile
        (necProfile.MARK_CYCLES * necProfile.T_LEADER_ON)) =
      (((necProfile.T_CARRIER * necProfile.MARK_CYCLES) *
        necProfile.T_LEADER_ON : Nat) : Int) :=
  c7_leader_timing 13 necProfile (Or.inr rfl) ['1', '0']

/-- C3 (amended): every synthesized frame ends with the trailer: the
final segment is a single off segment of duration
`8000 - T_CARRIER * MARK_CYCLES`, preceded by `MARK_CYCLES` half-cycle
pairs; for the two constructible profiles this duration is strictly
positive (7558 microseconds for AEHA, 7428 for NEC).  The code contains
no non-positive-duration check. -/
theorem c3_trailer_timing (pin : Nat) (p : Profile) (bits : List Char) :
    (∃ front, synthesize_frame pin p bits =
      front ++ markPulses pin p p.MARK_CYCLES ++
        [offPulse pin ((8000 : Int) - (p.T_CARRIER * p.MARK_CYCLES : Nat))]) ∧
    (synthesize_frame pin p bits).getLast? =
      some (offPulse pin ((8000 : Int) - (p.T_CARRIER * p.MARK_CYCLES : Nat))) ∧
    (8000 : Int) - (aehaProfile.T_CARRIER * aehaProfile.MARK_CYCLES : Nat) = 7558 ∧
    (8000 : Int) - (necProfile.T_CARRIER * necProfile.MARK_CYCLES : Nat) = 7428 := by
  refine ⟨⟨leaderPulses pin p ++ bits.flatMap (dataBitPulses pin p), ?_⟩, ?_, by decide, by decide⟩
  · simp [synthesize_frame, trailerPulses]
  · simp [synthesize_frame, trailerPulses, ← List.append_assoc]

set_option maxRecDepth 8192

/-- C3 counterexample: for profile constants whose mark duration exceeds
8000 microseconds, `synthesize_frame` does not fail; it returns a pulse
train containing a segment of negative duration (the value a Python
`pigpio.pulse` would receive). -/
theorem c3_counterexample :
    (synthesize_frame 13 ⟨1000, 9, 3, 8, 4⟩ []).getLast? =
      some (offPulse 13 (-1000)) ∧
    ∃ seg ∈ synthesize_frame 13 ⟨1000, 9, 3, 8, 4⟩ [], seg.delay < 0 := by
  decide

/-- C4 (amended): an empty payload is not rejected:
`IRxmit.get_bitstream` returns the empty bitstream, and
`IRxmit.synthesize_frame` then produces a frame consisting of exactly
the leader followed by the trailer, which `send` hands to the device. -/
theorem c4_empty_payload (pin : Nat) (p : Profile) :
    get_bitstream [] = some [] ∧
    synthesize_frame pin p [] = leaderPulses pin p ++ trailerPulses pin p := by
  exact ⟨rfl, by simp [synthesize_frame]⟩

/-- C4 counterexample: at the empty payload, encoding succeeds (no
`InvalidPayload` failure) and the AEHA-profile frame is exactly the
308-segment leader-and-trailer-only pulse train the claim says is never
produced. -/
theorem c4_counterexample :
    get_bitstream [] = some [] ∧
    synthesize_frame 13 aehaProfile [] =
      leaderPulses 13 aehaProfile ++ trailerPulses 13 aehaProfile ∧
    (synthesize_frame 13 aehaProfile []).length = 308 := by
  decide

/-- C1 helper: for an even-length all-hex input, encoding succeeds, byte
parsing succeeds, the bitstream has 8 bits per byte, and decoding the
bitstream group-by-group recovers the parsed bytes. -/
lemma get_bitstream_roundtrip_aux :
    ∀ s : List Char, s.length % 2 = 0 →
      (∀ c ∈ s, (hexDigitVal? c).isSome = true) →
      ∃ bits bytes,
        get_bitstream s = some bits ∧ payloadBytes? s = some bytes ∧
        bits.length = 8 * (s.length / 2) ∧ decodeGroups bits = bytes
  | [], _, _ => ⟨[], [], rfl, rfl, rfl, rfl⟩
  | [_], h, _ => by simp at h
  | c1 :: c2 :: rest, h, hhex => by
      have h1 : (hexDigitVal? c1).isSome = true := hhex c1 (by simp)
      have h2 : (hexDigitVal? c2).isSome = true := hhex c2 (by simp)
      obtain ⟨d1, hd1⟩ := Option.isSome_iff_exists.mp h1
      obtain ⟨d2, hd2⟩ := Option.isSome_iff_exists.mp h2
      have hpair : parseBytePair c1 c2 = some ((16 * d1 + d2 : Nat) : Int) :=
        parseBytePair_digits hd1 hd2
      have hv : 16 * d1 + d2 < 256 := by
        have b1 := hexDigitVal?_lt hd1
        have b2 := hexDigitVal?_lt hd2
        omega
      have h' : rest.length % 2 = 0 := by
        simp [List.length_cons] at h
        omega
      have hhex' : ∀ c ∈ rest, (hexDigitVal? c).isSome = true := fun c hc =>
        hhex c (by simp [hc])
      obtain ⟨bits, bytes, hb, hby, hlen, hdec⟩ :=
        get_bitstream_roundtrip_aux rest h' hhex'
      refine ⟨(toBinMSB8 (16 * d1 + d2)).reverse ++ bits,
        (16 * d1 + d2) :: bytes, ?_, ?_, ?_, ?_⟩
      · simp [get_bitstream, hpair, hb]
        rw [show (16 * (d1 : Int) + (d2 : Int)) = ((16 * d1 + d2 : Nat) : Int) by
          push_cast; ring]
        rw [formatBin8_ofNat]
      · simp [payloadBytes?, hd1, hd2, hby]
      · simp only [List.length_append, List.length_reverse, toBinMSB8_length,
          hlen, List.length_cons]
        omega
      · rw [decodeGroups_toBinMSB8_append, hdec, byteValMSB_toBinMSB8 _ hv]

/-- C1: for every valid even-length hexadecimal payload, the bitstream
produced by `get_bitstream` exists, has length `8 * (payload length / 2)`,
and re-grouping it into 8-bit groups, reversing each group, and reading
each group as a byte reconstructs the payload's bytes exactly. -/
theorem c1_roundtrip (s : List Char) (hs : s.length % 2 = 0)
    (hhex : ∀ c ∈ s, (hexDigitVal? c).isSome = true) :
    (get_bitstream s).isSome = true ∧
    ((get_bitstream s).getD []).length = 8 * (s.length / 2) ∧
    payloadBytes? s = some (decodeGroups ((get_bitstream s).getD [])) := by
  obtain ⟨bits, bytes, hb, hby, hlen, hdec⟩ :=
    get_bitstream_roundtrip_aux s hs hhex
  refine ⟨by simp [hb], by simp [hb, hlen], by simp [hb, hby, hdec]⟩

/-- Witness for C1 at the concrete payload `"0f"`. -/
theorem c1_roundtrip_witness :
    (get_bitstream "0f".toList).isSome = true ∧
    ((get_bitstream "0f".toList).getD []).length = 8 * ("0f".toList.length / 2) ∧
    payloadBytes? "0f".toList =
      some (decodeGroups ((get_bitstream "0f".toList).getD [])) :=
  c1_roundtrip "0f".toList (by decide) (by decide)

/-- C8: the end-to-end AEHA example for payload `"2c52092e27"`: 40 data
bits; a leader of 136 half-cycle pairs of 13-microsecond halves totalling
3536 microseconds, then a 1768-microsecond space; before every data
bit's space a mark of 17 pairs totalling 442 microseconds; and a
7558-microsecond trailer space. -/
theorem c8_aeha_example :
    get_bitstream "2c52092e27".toList =
      some "0011010001001010100100000111010011100100".toList ∧
    ("0011010001001010100100000111010011100100".toList).length = 40 ∧
    leaderPulses 13 aehaProfile =
      markPulses 13 aehaProfile 136 ++ [offPulse 13 1768] ∧
    (markPulses 13 aehaProfile 136).length = 272 ∧
    (∀ seg ∈ markPulses 13 aehaProfile 136, seg.delay = 13) ∧
    totalDuration (markPulses 13 aehaProfile 136) = 3536 ∧
    (∀ bit ∈ "0011010001001010100100000111010011100100".toList,
      dataBitPulses 13 aehaProfile bit =
        markPulses 13 aehaProfile 17 ++
          [offPulse 13 (if bit = '1' then 1326 else 442)]) ∧
    totalDuration (markPulses 13 aehaProfile 17) = 442 ∧
    trailerPulses 13 aehaProfile =
      markPulses 13 aehaProfile 17 ++ [offPulse 13 7558] := by
  decide

/-- C9 helper: the mark duration of a data bit's mark equals
`T_CARRIER * MARK_CYCLES` whenever `T_CARRIER` is even. -/
lemma mark_nat_duration (p : Profile) (heven : 2 * (p.T_CARRIER / 2) = p.T_CARRIER) :
    p.MARK_CYCLES * (2 * (p.T_CARRIER / 2)) = p.T_CARRIER * p.MARK_CYCLES := by
  rw [heven]
  ring

/-- C9 helper: total duration of one data bit's segment, for bit `'0'`. -/
lemma totalDuration_dataBit0 (pin : Nat) (p : Profile)
    (heven : 2 * (p.T_CARRIER / 2) = p.T_CARRIER) :
    totalDuration (dataBitPulses pin p '0') =
      2 * ((p.T_CARRIER * p.MARK_CYCLES : Nat) : Int) := by
  rw [dataBitPulses, if_pos rfl, totalDuration_append, totalDuration_markPulses,
    mark_nat_duration p heven]
  simp [totalDuration, offPulse]
  ring

/-- C9 helper: total duration of one data bit's segment, for bit `'1'`. -/
lemma totalDuration_dataBit1 (pin : Nat) (p : Profile)
    (heven : 2 * (p.T_CARRIER / 2) = p.T_CARRIER) (hoff : p.MARK_OFF = 3) :
    totalDuration (dataBitPulses pin p '1') =
      4 * ((p.T_CARRIER * p.MARK_CYCLES : Nat) : Int) := by
  rw [dataBitPulses, if_neg (by decide), if_pos rfl, totalDuration_append,
    totalDuration_markPulses, mark_nat_duration p heven]
  simp [totalDuration, offPulse, hoff]
  ring

/-- C9 helper: total duration of the data section, by induction over the
bit string. -/
lemma totalDuration_flatMap_data (pin : Nat) (p : Profile)
    (heven : 2 * (p.T_CARRIER / 2) = p.T_CARRIER) (hoff : p.MARK_OFF = 3) :
    ∀ bits : List Char, (∀ c ∈ bits, c = '0' ∨ c = '1') →
      totalDuration (bits.flatMap (dataBitPulses pin p)) =
        ((p.T_CARRIER * p.MARK_CYCLES *
          (2 * bits.length + 2 * bits.count '1') : Nat) : Int)
  | [], _ => by simp [totalDuration]
  | c :: t, hb => by
      have ih := totalDuration_flatMap_data pin p heven hoff t
        (fun x hx => hb x (List.mem_cons_of_mem c hx))
      rcases hb c (List.mem_cons_self c t) with rfl | rfl
      · have hcount : List.count '1' ('0' :: t) = List.count '1' t := by
          simp [List.count_cons]
        rw [List.flatMap_cons, totalDuration_append,
          totalDuration_dataBit0 pin p heven, ih, hcount, List.length_cons]
        push_cast
        ring
      · have hcount : List.count '1' ('1' :: t) = List.count '1' t + 1 := by
          simp [List.count_cons]
        rw [List.flatMap_cons, totalDuration_append,
          totalDuration_dataBit1 pin p heven hoff, ih, hcount, List.length_cons]
        push_cast
        ring

/-- C9: for either shipped profile, the total duration of the
synthesized frame is the exact affine function
`(T_CARRIER * MARK_CYCLES) * (T_LEADER_ON + T_LEADER_OFF + 2n + 2k) + 8000`
microseconds, where `n` is the bit count and `k` the count of `'1'`
bits; in particular the trailer always contributes exactly 8000
microseconds. -/
theorem c9_frame_duration (pin : Nat) (p : Profile)
    (hp : p = aehaProfile ∨ p = necProfile)
    (bits : List Char) (hb : ∀ c ∈ bits, c = '0' ∨ c = '1') :
    totalDuration (synthesize_frame pin p bits) =
      ((p.T_CARRIER * p.MARK_CYCLES *
        (p.T_LEADER_ON + p.T_LEADER_OFF + 2 * bits.length +
          2 * bits.count '1') : Nat) : Int) + 8000 := by
  have heven : 2 * (p.T_CARRIER / 2) = p.T_CARRIER := by
    rcases hp with rfl | rfl <;> rfl
  have hoff : p.MARK_OFF = 3 := by
    rcases hp with rfl | rfl <;> rfl
  rw [synthesize_frame, totalDuration_append, totalDuration_append,
    totalDuration_flatMap_data pin p heven hoff bits hb,
    leaderPulses, trailerPulses, totalDuration_append, totalDuration_append,
    totalDuration_markPulses, totalDuration_markPulses]
  simp only [totalDuration, List.map_cons, List.map_nil, List.sum_cons,
    List.sum_nil, offPulse]
  rw [show p.MARK_CYCLES * p.T_LEADER_ON * (2 * (p.T_CARRIER / 2)) =
        p.T_CARRIER * p.MARK_CYCLES * p.T_LEADER_ON by rw [heven]; ring,
      show p.MARK_CYCLES * (2 * (p.T_CARRIER / 2)) =
        p.T_CARRIER * p.MARK_CYCLES by rw [heven]; ring]
  push_cast
  ring

/-- Witness for C9 at the AEHA profile and the bit string `"01"`. -/
theorem c9_frame_duration_witness :
    totalDuration (synthesize_frame 13 aehaProfile ['0', '1']) =
      ((aehaProfile.T_CARRIER * aehaProfile.MARK_CYCLES *
        (aehaProfile.T_LEADER_ON + aehaProfile.T_LEADER_OFF +
          2 * (['0', '1'] : List Char).length +
          2 * (['0', '1'] : List Char).count '1') : Nat) : Int) + 8000 :=
  c9_frame_duration 13 aehaProfile (Or.inl rfl) ['0', '1'] (by decide)

/-- C10 helper: every pulse of a frame has strictly positive delay
whenever the profile's derived durations are all strictly positive. -/
lemma delay_pos_of_mem (pin : Nat) (p : Profile)
    (hT : 0 < p.T_CARRIER / 2)
    (hLO : 0 < p.T_CARRIER * p.MARK_CYCLES * p.T_LEADER_OFF)
    (hTM : 0 < p.T_CARRIER * p.MARK_CYCLES)
    (hMO : 0 < p.T_CARRIER * p.MARK_CYCLES * p.MARK_OFF)
    (htr : (0 : Int) < 8000 - ((p.T_CARRIER * p.MARK_CYCLES : Nat) : Int))
    (bits : List Char) (hb : ∀ c ∈ bits, c = '0' ∨ c = '1') :
    ∀ seg ∈ synthesize_frame pin p bits, 0 < seg.delay := by
  intro seg hseg
  have hmark : ∀ {n : Nat}, seg ∈ markPulses pin p n → 0 < seg.delay := by
    intro n hn
    rcases mem_markPulses hn with rfl | rfl <;>
      · simp only [onHalf, offHalf]
        exact_mod_cast hT
  simp only [synthesize_frame, leaderPulses, trailerPulses, List.mem_append,
    List.mem_flatMap, List.mem_singleton] at hseg
  rcases hseg with ((hm | rfl) | ⟨bit, hbit, hmem⟩) | (hm | rfl)
  · exact hmark hm
  · simp only [offPulse]
    exact_mod_cast hLO
  · simp only [dataBitPulses, List.mem_append] at hmem
    rcases hmem with hm | hif
    · exact hmark hm
    · rcases hb bit hbit with rfl | rfl
      · rw [if_pos rfl] at hif
        rcases List.mem_singleton.mp hif with rfl
        simp only [offPulse]
        exact_mod_cast hTM
      · rw [if_neg (by decide), if_pos rfl] at hif
        rcases List.mem_singleton.mp hif with rfl
        simp only [offPulse]
        exact_mod_cast hMO
  · exact hmark hm
  · simp only [offPulse]
    exact htr

/-- C10: for both shipped profiles and every bit string of `'0'`/`'1'`
characters, every segment of the synthesized frame has a strictly
positive duration, so the non-positive-duration condition is unreachable
for the profiles the program can construct. -/
theorem c10_positive_durations (pin : Nat) (p : Profile)
    (hp : p = aehaProfile ∨ p = necProfile)
    (bits : List Char) (hb : ∀ c ∈ bits, c = '0' ∨ c = '1') :
    ∀ seg ∈ synthesize_frame pin p bits, 0 < seg.delay := by
  rcases hp with rfl | rfl <;>
    exact delay_pos_of_mem _ _ (by decide) (by decide) (by decide) (by decide)
      (by decide) bits hb

/-- Witness for C10: the on half-cycle of the AEHA frame for `"1"` is a
member of the frame and has positive delay. -/
theorem c10_positive_durations_witness :
    0 < (onHalf 13 aehaProfile).delay :=
  c10_positive_durations 13 aehaProfile (Or.inl rfl) ['1'] (by decide)
    (onHalf 13 aehaProfile) (by decide)
